import Mathlib

/-!
# Verification of the Buyer-lead intake application

A shallow embedding of the core logic of the repository:

* `src/src/lib/rate-limit.ts` — the fixed-window in-memory rate limiter
  (`RateLimiter.checkLimit`, `RateLimiter.reset`);
* `src/src/app/api/buyers/import/route.ts` — the CSV import pipeline
  (`importCSV`, `parseCSVLine`, `transformCSVRow`) together with the zod
  `buyerSchema` from `src/unnamed/part_000` (`lib/validators/buyer.ts`);
* `src/src/app/api/buyers/[id]/status/route.ts` — `updateBuyerStatus`;
* the general `PUT /api/buyers/[id]` handler `updateBuyer` (embedded in
  `src/prisma/migrations/.../migration.sql`) — the history differ.

JavaScript string primitives used by that code (`String.prototype.trim`,
`String.prototype.split` with a one-character separator, `parseInt`,
`Array.prototype.join`) are modelled explicitly on `List Char` so that all
proofs stay within ordinary list reasoning.  Machine numbers of the source
are modelled by `Nat`/`Int`; none of the modelled arithmetic can overflow
the JS safe-integer range on the inputs the endpoints accept.
-/

/-! ## JavaScript string primitives -/

/-- Whitespace as recognised by `String.prototype.trim` (restricted to the
ASCII whitespace characters, the only ones the CSV pipeline can meet). -/
def isJsWs (c : Char) : Bool :=
  c = ' ' || c = '\t' || c = '\n' || c = '\r'

/-- Remove trailing whitespace from a character list. -/
def trimRight : List Char → List Char
  | [] => []
  | c :: rest =>
    match trimRight rest with
    | [] => if isJsWs c then [] else [c]
    | r => c :: r

/-- `String.prototype.trim` on a character list: drop leading and trailing
whitespace. -/
def trimL (l : List Char) : List Char :=
  trimRight (l.dropWhile isJsWs)

/-- `String.prototype.trim`. -/
def jsTrim (s : String) : String :=
  String.mk (trimL s.data)

/-- `String.prototype.split` with a one-character separator: split at every
occurrence of `c`, keeping empty components (`"".split(c)` is `[""]`). -/
def splitOnChar (c : Char) : List Char → List (List Char)
  | [] => [[]]
  | x :: rest =>
    if x = c then [] :: splitOnChar c rest
    else
      match splitOnChar c rest with
      | [] => [[x]]
      | h :: t => (x :: h) :: t

/-- `Array.prototype.join(', ')`. -/
def joinComma : List String → String
  | [] => ""
  | [x] => x
  | x :: xs => x ++ ", " ++ joinComma xs

/-- The longest decimal-digit prefix of a character list, if non-empty. -/
def digitsVal : List Char → Option Nat
  | cs =>
    let ds := cs.takeWhile Char.isDigit
    if ds.isEmpty then none
    else some (ds.foldl (fun a c => a * 10 + (c.toNat - '0'.toNat)) 0)

/-- JavaScript `parseInt` on radix-10 input: skip leading whitespace, read an
optional sign and then the longest digit prefix; `none` models `NaN`.
(The builtin's automatic hex detection for `0x` prefixes is outside the
inputs this pipeline deals in.) -/
def jsParseInt (s : String) : Option Int :=
  match s.data.dropWhile isJsWs with
  | '-' :: rest => (digitsVal rest).map (fun n => -(n : Int))
  | '+' :: rest => (digitsVal rest).map (fun n => (n : Int))
  | cs => (digitsVal cs).map (fun n => (n : Int))

/-! ## Rate limiter (`src/src/lib/rate-limit.ts`) -/

/-- `RateLimitConfig` (the `skip*Requests` flags are dead in the source). -/
structure RateLimitConfig where
  windowMs : Nat
  maxRequests : Nat
  message : Option String
deriving DecidableEq, Repr

/-- `RateLimitResult`. -/
structure RateLimitResult where
  allowed : Bool
  remaining : Nat
  resetTime : Nat
  message : Option String
deriving DecidableEq, Repr

/-- One value of the `rateLimitStore` map. -/
structure RateLimitEntry where
  count : Nat
  resetTime : Nat
deriving DecidableEq, Repr

/-- The store key `` `${identifier}:${windowStart}` ``.  Since the rendered
`windowStart` contains no `':'`, the string key determines the pair, so the
pair is a faithful key model. -/
abbrev RateKey := String × Nat

/-- The in-memory `rateLimitStore` `Map`, as an association list with unique
keys (insertion order is irrelevant to lookups). -/
abbrev RateStore := List (RateKey × RateLimitEntry)

/-- `Map.prototype.get`. -/
def getEntry : RateStore → RateKey → Option RateLimitEntry
  | [], _ => none
  | (k', v') :: rest, k => if k' = k then some v' else getEntry rest k

/-- `Map.prototype.set`: replace the binding if present, else append. -/
def setEntry : RateStore → RateKey → RateLimitEntry → RateStore
  | [], k, v => [(k, v)]
  | (k', v') :: rest, k, v =>
    if k' = k then (k, v) :: rest else (k', v') :: setEntry rest k v

/-- `Map.prototype.delete`. -/
def delEntry : RateStore → RateKey → RateStore
  | [], _ => []
  | (k', v') :: rest, k =>
    if k' = k then rest else (k', v') :: delEntry rest k

/-- The epoch-aligned bucket start `Math.floor(now / windowMs) * windowMs`. -/
def windowStartOf (cfg : RateLimitConfig) (now : Nat) : Nat :=
  now / cfg.windowMs * cfg.windowMs

/-- The counter currently stored for `identifier` in the bucket of `now`. -/
def currentCountOf (cfg : RateLimitConfig) (st : RateStore)
    (identifier : String) (now : Nat) : Nat :=
  match getEntry st (identifier, windowStartOf cfg now) with
  | some e => e.count
  | none => 0

namespace RateLimiter

/-- `RateLimiter.checkLimit` (the store is passed and returned explicitly;
`now` replaces `Date.now()`). -/
def checkLimit (cfg : RateLimitConfig) (st : RateStore) (identifier : String)
    (now : Nat) (requestCount : Nat) : RateLimitResult × RateStore :=
  let windowStart := windowStartOf cfg now
  let key : RateKey := (identifier, windowStart)
  let currentCount :=
    match getEntry st key with
    | some e => e.count
    | none => 0
  let newCount := currentCount + requestCount
  if newCount > cfg.maxRequests then
    ({ allowed := false
       remaining := cfg.maxRequests - currentCount
       resetTime := windowStart + cfg.windowMs
       message := cfg.message }, st)
  else
    ({ allowed := true
       remaining := cfg.maxRequests - newCount
       resetTime := windowStart + cfg.windowMs
       message := none },
     setEntry st key ⟨newCount, windowStart + cfg.windowMs⟩)

/-- `RateLimiter.reset`. -/
def reset (cfg : RateLimitConfig) (st : RateStore) (identifier : String)
    (now : Nat) : RateStore :=
  delEntry st (identifier, windowStartOf cfg now)

/-- Run a batch of `checkLimit` calls for one identity at one instant, in the
order given; `checkLimit` is synchronous JS, so any interleaving of
concurrent calls is one such order.  Returns the `allowed` outcomes. -/
def runCalls (cfg : RateLimitConfig) (st : RateStore) (identifier : String)
    (now : Nat) : List Nat → List Bool × RateStore
  | [] => ([], st)
  | c :: cs =>
    let step := checkLimit cfg st identifier now c
    let rest := runCalls cfg step.2 identifier now cs
    (step.1.allowed :: rest.1, rest.2)

end RateLimiter

/-! ### Store lemmas -/

theorem getEntry_setEntry_same (st : RateStore) (k : RateKey)
    (v : RateLimitEntry) : getEntry (setEntry st k v) k = some v := by
  induction st with
  | nil => simp [setEntry, getEntry]
  | cons p rest ih =>
    by_cases h : p.1 = k
    · simp [setEntry, getEntry, h]
    · simp [setEntry, getEntry, h, ih]

/-! ### C4: the 3-then-reject-then-reset scenario -/

/-- The test configuration of `tests/rate-limit.test.ts`:
`windowMs = 1000`, `maxRequests = 3`. -/
def testCfg : RateLimitConfig := ⟨1000, 3, some "Test rate limit exceeded"⟩

/-- **C4.** With `maxRequests = 3` and a fresh identity inside one window,
three consecutive `checkLimit` calls are allowed with `remaining` 2, 1, 0;
the fourth is rejected with `remaining = 0`; after `reset()` the next call
is allowed again with `remaining = 2`. -/
theorem rate_limit_sequence_spec :
    let s0 : RateStore := []
    let r1 := RateLimiter.checkLimit testCfg s0 "user1" 0 1
    let r2 := RateLimiter.checkLimit testCfg r1.2 "user1" 0 1
    let r3 := RateLimiter.checkLimit testCfg r2.2 "user1" 0 1
    let r4 := RateLimiter.checkLimit testCfg r3.2 "user1" 0 1
    let s5 := RateLimiter.reset testCfg r4.2 "user1" 0
    let r5 := RateLimiter.checkLimit testCfg s5 "user1" 0 1
    (r1.1.allowed = true ∧ r1.1.remaining = 2) ∧
    (r2.1.allowed = true ∧ r2.1.remaining = 1) ∧
    (r3.1.allowed = true ∧ r3.1.remaining = 0) ∧
    (r4.1.allowed = false ∧ r4.1.remaining = 0) ∧
    (r5.1.allowed = true ∧ r5.1.remaining = 2) := by
  decide

/-! ### Branch characterisations of `checkLimit` -/

theorem checkLimit_reject_eq (cfg : RateLimitConfig) (st : RateStore)
    (identifier : String) (now cnt : Nat)
    (h : currentCountOf cfg st identifier now + cnt > cfg.maxRequests) :
    RateLimiter.checkLimit cfg st identifier now cnt =
      (⟨false, cfg.maxRequests - currentCountOf cfg st identifier now,
        windowStartOf cfg now + cfg.windowMs, cfg.message⟩, st) := by
  simp only [RateLimiter.checkLimit, currentCountOf, windowStartOf] at h ⊢
  rw [if_pos h]

theorem checkLimit_allow_eq (cfg : RateLimitConfig) (st : RateStore)
    (identifier : String) (now cnt : Nat)
    (h : ¬ currentCountOf cfg st identifier now + cnt > cfg.maxRequests) :
    RateLimiter.checkLimit cfg st identifier now cnt =
      (⟨true, cfg.maxRequests - (currentCountOf cfg st identifier now + cnt),
        windowStartOf cfg now + cfg.windowMs, none⟩,
       setEntry st (identifier, windowStartOf cfg now)
         ⟨currentCountOf cfg st identifier now + cnt,
          windowStartOf cfg now + cfg.windowMs⟩) := by
  simp only [RateLimiter.checkLimit, currentCountOf, windowStartOf] at h ⊢
  rw [if_neg h]

/-! ### C3: rejection semantics of `checkLimit` -/

/-- **C3, counterexample.** A rejected `checkLimit` call does *not* always
report `remaining = 0`: with `maxRequests = 3`, a fresh identity and a
requested count of 4, the call is rejected yet `remaining = 3`. -/
theorem checkLimit_reject_remaining_nonzero :
    (RateLimiter.checkLimit ⟨1000, 3, none⟩ [] "user1" 0 4).1.allowed = false ∧
    (RateLimiter.checkLimit ⟨1000, 3, none⟩ [] "user1" 0 4).1.remaining = 3 ∧
    ¬ (RateLimiter.checkLimit ⟨1000, 3, none⟩ [] "user1" 0 4).1.remaining = 0 := by
  decide

/-- **C3, amended.** A `checkLimit` call whose requested count would push the
current bucket's counter above `maxRequests` is rejected without mutating the
store, reports `resetTime = bucket-start + windowMs`, and reports
`remaining = max(0, maxRequests − current count)` — which is `0` whenever the
requested count is 1 (the default used by every production call site). -/
theorem checkLimit_reject_no_mutation (cfg : RateLimitConfig) (st : RateStore)
    (identifier : String) (now cnt : Nat)
    (h : currentCountOf cfg st identifier now + cnt > cfg.maxRequests) :
    (RateLimiter.checkLimit cfg st identifier now cnt).1.allowed = false ∧
    (RateLimiter.checkLimit cfg st identifier now cnt).2 = st ∧
    (RateLimiter.checkLimit cfg st identifier now cnt).1.resetTime =
      windowStartOf cfg now + cfg.windowMs ∧
    (RateLimiter.checkLimit cfg st identifier now cnt).1.remaining =
      cfg.maxRequests - currentCountOf cfg st identifier now ∧
    (cnt = 1 → (RateLimiter.checkLimit cfg st identifier now cnt).1.remaining = 0) := by
  rw [checkLimit_reject_eq cfg st identifier now cnt h]
  refine ⟨rfl, rfl, rfl, rfl, fun h1 => ?_⟩
  subst h1
  simp only
  omega

theorem checkLimit_reject_no_mutation_witness :
    currentCountOf ⟨1000, 3, none⟩ [] "user1" 0 + 4 > 3 ∧
    ((RateLimiter.checkLimit ⟨1000, 3, none⟩ [] "user1" 0 4).1.allowed = false ∧
     (RateLimiter.checkLimit ⟨1000, 3, none⟩ [] "user1" 0 4).2 = [] ∧
     (RateLimiter.checkLimit ⟨1000, 3, none⟩ [] "user1" 0 4).1.resetTime =
       windowStartOf ⟨1000, 3, none⟩ 0 + 1000 ∧
     (RateLimiter.checkLimit ⟨1000, 3, none⟩ [] "user1" 0 4).1.remaining =
       3 - currentCountOf ⟨1000, 3, none⟩ [] "user1" 0 ∧
     (4 = 1 → (RateLimiter.checkLimit ⟨1000, 3, none⟩ [] "user1" 0 4).1.remaining = 0)) :=
  ⟨by decide, checkLimit_reject_no_mutation ⟨1000, 3, none⟩ [] "user1" 0 4 (by decide)⟩

/-! ### C10: no overcount across any interleaving -/

theorem runCalls_count_le (cfg : RateLimitConfig) (identifier : String)
    (now : Nat) :
    ∀ (counts : List Nat) (st : RateStore), (∀ c ∈ counts, 1 ≤ c) →
    ((RateLimiter.runCalls cfg st identifier now counts).1.count true) ≤
      cfg.maxRequests - currentCountOf cfg st identifier now := by
  intro counts
  induction counts with
  | nil => intro st _; simp [RateLimiter.runCalls]
  | cons c cs ih =>
    intro st h
    have hc : 1 ≤ c := h c (by simp)
    have hcs : ∀ x ∈ cs, 1 ≤ x := fun x hx => h x (by simp [hx])
    by_cases hb : currentCountOf cfg st identifier now + c > cfg.maxRequests
    · simp only [RateLimiter.runCalls, checkLimit_reject_eq cfg st identifier now c hb]
      have := ih st hcs
      simpa using this
    · simp only [RateLimiter.runCalls, checkLimit_allow_eq cfg st identifier now c hb]
      have hkey : currentCountOf cfg
          (setEntry st (identifier, windowStartOf cfg now)
            ⟨currentCountOf cfg st identifier now + c,
             windowStartOf cfg now + cfg.windowMs⟩) identifier now =
          currentCountOf cfg st identifier now + c := by
        simp [currentCountOf, getEntry_setEntry_same]
      have := ih (setEntry st (identifier, windowStartOf cfg now)
            ⟨currentCountOf cfg st identifier now + c,
             windowStartOf cfg now + cfg.windowMs⟩) hcs
      rw [hkey] at this
      simp only [List.count_cons, beq_self_eq_true, if_true]
      omega

/-- **C10.** Among any batch of `checkLimit` calls for one identity landing in
one bucket — executed in any order, each consuming at least one unit — at
most `maxRequests` are reported allowed; in particular 10 unit calls against
a fresh identity with `maxRequests = 3` yield exactly 3 `allowed = true`
followed by 7 `allowed = false`. -/
theorem checkLimit_no_overcount (cfg : RateLimitConfig) (st : RateStore)
    (identifier : String) (now : Nat) (counts : List Nat)
    (h : ∀ c ∈ counts, 1 ≤ c) :
    ((RateLimiter.runCalls cfg st identifier now counts).1.count true) ≤
      cfg.maxRequests ∧
    (RateLimiter.runCalls ⟨1000, 3, none⟩ [] "user1" 0
        (List.replicate 10 1)).1 =
      List.replicate 3 true ++ List.replicate 7 false := by
  constructor
  · have := runCalls_count_le cfg identifier now counts st h
    omega
  · decide

theorem checkLimit_no_overcount_witness :
    (∀ c ∈ List.replicate 10 1, 1 ≤ c) ∧
    (((RateLimiter.runCalls ⟨1000, 3, none⟩ [] "user1" 0
        (List.replicate 10 1)).1.count true) ≤ 3 ∧
     (RateLimiter.runCalls ⟨1000, 3, none⟩ [] "user1" 0
        (List.replicate 10 1)).1 =
      List.replicate 3 true ++ List.replicate 7 false) :=
  ⟨by decide,
   checkLimit_no_overcount ⟨1000, 3, none⟩ [] "user1" 0
     (List.replicate 10 1) (by decide)⟩

/-! ## Closed enumerations (Prisma enums used by `buyerSchema`) -/

def cityValues : List String :=
  ["Chandigarh", "Mohali", "Zirakpur", "Panchkula", "Other"]

def propertyTypeValues : List String :=
  ["Apartment", "Villa", "Plot", "Office", "Retail"]

def bhkValues : List String := ["ONE", "TWO", "THREE", "FOUR", "STUDIO"]

def purposeValues : List String := ["Buy", "Rent"]

def timelineValues : List String :=
  ["ZERO_TO_3M", "THREE_TO_6M", "GT_6M", "EXPLORING"]

def sourceValues : List String := ["Website", "Referral", "WALK_IN", "Call", "Other"]

def statusValues : List String :=
  ["New", "Qualified", "Contacted", "Visited", "Negotiation", "Converted", "Dropped"]

/-! ## zod email validation

`z.string().email()` checks the library regex
`^(?!\.)(?!.*\.\.)([A-Z0-9_'+\-.]*)[A-Z0-9_+-]@([A-Z0-9][A-Z0-9-]*\.)+[A-Z]{2,}$`
(case-insensitive); the functions below implement it directly. -/

/-- Characters allowed anywhere in the local part of an address. -/
def isEmailLocalChar (c : Char) : Bool :=
  c.isAlphanum || c = '_' || c = Char.ofNat 39 || c = '+' || c = '-' || c = '.'

/-- Characters allowed as the last character of the local part. -/
def isEmailEndChar (c : Char) : Bool :=
  c.isAlphanum || c = '_' || c = '+' || c = '-'

/-- No two consecutive dots anywhere in the string. -/
def noDoubleDot : List Char → Bool
  | [] => true
  | [_] => true
  | a :: b :: rest => !(a = '.' && b = '.') && noDoubleDot (b :: rest)

/-- A domain label `[A-Z0-9][A-Z0-9-]*`. -/
def isDomainLabel (l : List Char) : Bool :=
  match l with
  | [] => false
  | c :: rest => c.isAlphanum && rest.all (fun x => x.isAlphanum || x = '-')

/-- A top-level domain `[A-Z]{2,}`. -/
def isTld (l : List Char) : Bool :=
  decide (2 ≤ l.length) && l.all Char.isAlpha

/-- The zod email regex. -/
def isValidEmail (s : String) : Bool :=
  match splitOnChar '@' s.data with
  | [lp, dom] =>
    (match lp with
     | [] => false
     | c :: _ => decide (c ≠ '.')) &&
    lp.all isEmailLocalChar &&
    (match lp.getLast? with
     | some c => isEmailEndChar c
     | none => false) &&
    noDoubleDot s.data &&
    (match (splitOnChar '.' dom).reverse with
     | tld :: labels =>
       isTld tld && decide (labels ≠ []) && labels.all isDomainLabel
     | [] => false)
  | _ => false

instance {e a : Type} [DecidableEq e] [DecidableEq a] : DecidableEq (Except e a) :=
  fun x y =>
    match x, y with
    | .error u, .error v =>
      if h : u = v then Decidable.isTrue (h ▸ rfl)
      else Decidable.isFalse (fun hh => h (by injection hh))
    | .ok u, .ok v =>
      if h : u = v then Decidable.isTrue (h ▸ rfl)
      else Decidable.isFalse (fun hh => h (by injection hh))
    | .error _, .ok _ => Decidable.isFalse (fun hh => Except.noConfusion hh)
    | .ok _, .error _ => Decidable.isFalse (fun hh => Except.noConfusion hh)

/-! ## CSV row data (`src/src/app/api/buyers/import/route.ts`) -/

/-- The `CSVRow` interface: the 14 raw string fields of one data row. -/
structure CSVRow where
  fullName : String
  email : String
  phone : String
  city : String
  propertyType : String
  bhk : String
  purpose : String
  budgetMin : String
  budgetMax : String
  timeline : String
  source : String
  notes : String
  tags : String
  status : String
deriving DecidableEq, Repr

/-- A JavaScript number that is either an integer or `NaN` (the only numbers
`parseInt` can produce). -/
inductive JsNum
  | int (n : Int)
  | nan
deriving DecidableEq, Repr

/-- The object literal `transformedData` built by `transformCSVRow`:
`none` in an `Option` field models the JS `null` the transform writes there.
(zod's `.optional()` accepts only `undefined`; `null` reaches the inner
validator and fails — the distinction is observable and kept.) -/
structure TransformedRow where
  fullName : String
  email : Option String
  phone : String
  city : String
  propertyType : String
  bhk : Option String
  purpose : String
  budgetMin : Option JsNum
  budgetMax : Option JsNum
  timeline : String
  source : String
  status : String
  notes : Option String
  tags : List String
deriving DecidableEq, Repr

/-- The output of a successful `buyerSchema.parse` on a `transformedData`
object: every field is concrete, because a `null` in any optional field is
rejected by the schema before this point. -/
structure ValidBuyer where
  fullName : String
  email : String
  phone : String
  city : String
  propertyType : String
  bhk : String
  purpose : String
  budgetMin : Int
  budgetMax : Int
  timeline : String
  source : String
  status : String
  notes : String
  tags : List String
deriving DecidableEq, Repr

/-- `buyerSchema.parse` (`lib/validators/buyer.ts`) on a `transformedData`
object, returning the first zod issue `(path, message)` on failure.  zod
collects issues per declared key in declaration order and runs the
`superRefine` block only once the base object parsed, so returning the first
failure in that order models `err.issues[0]`.  Enum-membership failures all
render long `invalid_enum_value` texts; they are abbreviated to
`"Invalid enum value"` (no claim rests on those texts). -/
def buyerParse (t : TransformedRow) : Except (String × String) ValidBuyer :=
  if t.fullName.length < 2 then
    .error ("fullName", "String must contain at least 2 character(s)")
  else if t.fullName.length > 80 then
    .error ("fullName", "String must contain at most 80 character(s)")
  else
    match t.email with
    | none => .error ("email", "Expected string, received null")
    | some em =>
      if !isValidEmail em then .error ("email", "Invalid email")
      else if !(t.phone.data.all Char.isDigit
                && decide (10 ≤ t.phone.length) && decide (t.phone.length ≤ 15)) then
        .error ("phone", "Invalid")
      else if !(cityValues.contains t.city) then
        .error ("city", "Invalid enum value")
      else if !(propertyTypeValues.contains t.propertyType) then
        .error ("propertyType", "Invalid enum value")
      else
        match t.bhk with
        | none => .error ("bhk", "Invalid enum value")
        | some bh =>
          if !(bhkValues.contains bh) then .error ("bhk", "Invalid enum value")
          else if !(purposeValues.contains t.purpose) then
            .error ("purpose", "Invalid enum value")
          else
            match t.budgetMin with
            | none => .error ("budgetMin", "Expected number, received null")
            | some JsNum.nan => .error ("budgetMin", "Expected number, received nan")
            | some (JsNum.int bMin) =>
              match t.budgetMax with
              | none => .error ("budgetMax", "Expected number, received null")
              | some JsNum.nan => .error ("budgetMax", "Expected number, received nan")
              | some (JsNum.int bMax) =>
                if !(timelineValues.contains t.timeline) then
                  .error ("timeline", "Invalid enum value")
                else if !(sourceValues.contains t.source) then
                  .error ("source", "Invalid enum value")
                else if !(statusValues.contains t.status) then
                  .error ("status", "Invalid enum value")
                else
                  match t.notes with
                  | none => .error ("notes", "Expected string, received null")
                  | some nt =>
                    if nt.length > 1000 then
                      .error ("notes", "String must contain at most 1000 character(s)")
                    else if (t.propertyType = "Apartment" || t.propertyType = "Villa")
                            && bh = "" then
                      .error ("bhk", "BHK is required for Apartment/Villa")
                    else if bMax < bMin then
                      .error ("budgetMax", "BudgetMax must be >= BudgetMin")
                    else
                      .ok ⟨t.fullName, em, t.phone, t.city, t.propertyType, bh,
                           t.purpose, bMin, bMax, t.timeline, t.source, t.status,
                           nt, t.tags⟩

/-- `s || null`: the transform's empty-string-to-`null` normalisation. -/
def jsOrNull (s : String) : Option String :=
  if s = "" then none else some s

/-- Coerce a `parseInt` result into a JS number (`none` was `NaN`). -/
def toJsNum : Option Int → JsNum
  | some n => .int n
  | none => .nan

/-- The tag-splitting step of `transformCSVRow`:
`row.tags.split(',').map(t => t.trim()).filter(t => t.length > 0)` guarded by
`row.tags && row.tags.trim() !== ''`. -/
def parseTags (s : String) : List String :=
  if jsTrim s = "" then []
  else
    ((splitOnChar ',' s.data).map (fun l => String.mk (trimL l))).filter
      (fun t => 0 < t.length)

/-- `transformCSVRow` (import route): required-field checks in source order,
then the transform into `transformedData`, then `buyerSchema.parse`.
(`!row.x || row.x.trim() === ''` is equivalent to `row.x.trim() === ''`.) -/
def transformCSVRow (row : CSVRow) : Except String ValidBuyer :=
  if jsTrim row.fullName = "" then .error "fullName is required"
  else if jsTrim row.phone = "" then .error "phone is required"
  else if jsTrim row.city = "" then .error "city is required"
  else if jsTrim row.propertyType = "" then .error "propertyType is required"
  else if jsTrim row.purpose = "" then .error "purpose is required"
  else if jsTrim row.timeline = "" then .error "timeline is required"
  else if jsTrim row.source = "" then .error "source is required"
  else
    let t : TransformedRow :=
      { fullName := jsTrim row.fullName
        email := jsOrNull (jsTrim row.email)
        phone := jsTrim row.phone
        city := jsTrim row.city
        propertyType := jsTrim row.propertyType
        bhk := jsOrNull (jsTrim row.bhk)
        purpose := jsTrim row.purpose
        budgetMin :=
          if jsTrim row.budgetMin = "" then none
          else some (toJsNum (jsParseInt row.budgetMin))
        budgetMax :=
          if jsTrim row.budgetMax = "" then none
          else some (toJsNum (jsParseInt row.budgetMax))
        timeline := jsTrim row.timeline
        source := jsTrim row.source
        status := if jsTrim row.status = "" then "New" else jsTrim row.status
        notes := jsOrNull (jsTrim row.notes)
        tags := parseTags row.tags }
    match buyerParse t with
    | .ok v => .ok v
    | .error pe => .error (pe.1 ++ ": " ++ pe.2)

/-- `parseCSVLine`'s character loop: `inQ` is `inQuotes`, `cur` the field
being accumulated, `acc` the fields already emitted. -/
def parseCSVChars : Bool → List Char → List (List Char) → List Char →
    List (List Char)
  | _, cur, acc, [] => acc ++ [trimL cur]
  | inQ, cur, acc, c :: rest =>
    if c = '"' then
      if inQ then
        if rest.head? = some '"' then
          parseCSVChars inQ (cur ++ ['"']) acc rest.tail
        else parseCSVChars false cur acc rest
      else parseCSVChars true cur acc rest
    else if c = ',' && !inQ then parseCSVChars false [] (acc ++ [trimL cur]) rest
    else parseCSVChars inQ (cur ++ [c]) acc rest
termination_by _ _ _ l => l.length

/-- A structurally recursive twin of `parseCSVChars`: the source's one-step
lookahead (`line[i + 1] === '"'` with `i++`) is realised by a `pending` flag
meaning "the previous character was a `"` seen inside quotes".
`parseCSVChars_eq_spec` proves the two agree. -/
def parseCSVCharsS : Bool → Bool → List Char → List (List Char) →
    List Char → List (List Char)
  | _, _, cur, acc, [] => acc ++ [trimL cur]
  | inQ, pending, cur, acc, c :: rest =>
    if pending then
      if c = '"' then parseCSVCharsS true false (cur ++ ['"']) acc rest
      else if c = ',' then parseCSVCharsS false false [] (acc ++ [trimL cur]) rest
      else parseCSVCharsS false false (cur ++ [c]) acc rest
    else
      if c = '"' then
        if inQ then parseCSVCharsS true true cur acc rest
        else parseCSVCharsS true false cur acc rest
      else if c = ',' && !inQ then
        parseCSVCharsS false false [] (acc ++ [trimL cur]) rest
      else parseCSVCharsS inQ false (cur ++ [c]) acc rest

/-- The automaton computes exactly the source's lookahead loop. -/
theorem parseCSVChars_eq_spec :
    ∀ (inQ : Bool) (cur : List Char) (acc : List (List Char)) (l : List Char),
    parseCSVChars inQ cur acc l = parseCSVCharsS inQ false cur acc l := by
  intro inQ cur acc l
  induction inQ, cur, acc, l using parseCSVChars.induct with
  | case1 inQ cur acc => simp [parseCSVChars, parseCSVCharsS]
  | case2 cur acc rest hh ih =>
    obtain ⟨t, rfl⟩ : ∃ t, rest = '"' :: t := by
      cases rest with
      | nil => simp at hh
      | cons r0 t =>
        simp only [List.head?_cons, Option.some.injEq] at hh
        exact ⟨t, by rw [hh]⟩
    have e1 : parseCSVChars true cur acc ('"' :: '"' :: t)
        = parseCSVChars true (cur ++ ['"']) acc t := by
      simp [parseCSVChars]
    have e2 : parseCSVCharsS true false cur acc ('"' :: '"' :: t)
        = parseCSVCharsS true false (cur ++ ['"']) acc t := by
      simp [parseCSVCharsS]
    rw [e1, e2]
    simpa using ih
  | case3 cur acc rest hh ih =>
    have e1 : parseCSVChars true cur acc ('"' :: rest)
        = parseCSVChars false cur acc rest := by
      simp only [parseCSVChars, if_pos rfl, if_true]
      rw [if_neg hh]
    rw [e1, ih]
    have e2 : parseCSVCharsS true false cur acc ('"' :: rest)
        = parseCSVCharsS true true cur acc rest := by
      simp [parseCSVCharsS]
    rw [e2]
    cases rest with
    | nil => rfl
    | cons c t =>
      have hc : ¬ c = '"' := by
        intro hcq
        exact hh (by simp [hcq])
      by_cases hcomma : c = ','
      · simp [parseCSVCharsS, hc, hcomma]
      · simp [parseCSVCharsS, hc, hcomma]
  | case4 inQ cur acc rest hinq ih =>
    have hF : inQ = false := by simpa using hinq
    subst hF
    have e1 : parseCSVChars false cur acc ('"' :: rest)
        = parseCSVChars true cur acc rest := by
      simp [parseCSVChars]
    rw [e1, ih]
    simp [parseCSVCharsS]
  | case5 inQ cur acc c rest hq hcomma ih =>
    have e1 : parseCSVChars inQ cur acc (c :: rest)
        = parseCSVChars false [] (acc ++ [trimL cur]) rest := by
      simp only [parseCSVChars]
      rw [if_neg hq, if_pos hcomma]
    rw [e1, ih]
    have hinq : inQ = false := by
      cases inQ
      · rfl
      · simp at hcomma
    subst hinq
    simp only [parseCSVCharsS, if_neg hq]
    rw [if_neg (by simp), if_pos hcomma]
  | case6 inQ cur acc c rest hq hcomma ih =>
    have e1 : parseCSVChars inQ cur acc (c :: rest)
        = parseCSVChars inQ (cur ++ [c]) acc rest := by
      simp only [parseCSVChars]
      rw [if_neg hq, if_neg hcomma]
    rw [e1, ih]
    simp only [parseCSVCharsS, if_neg hq]
    rw [if_neg (by simp), if_neg hcomma]

/-- `parseCSVLine`: quote-aware split of one line into fields, each field
trimmed, padded with `""` up to the 14 expected columns.  Computed through
the structural automaton, which `parseCSVChars_eq_spec` identifies with the
source loop. -/
def parseCSVLine (line : String) : List String :=
  if jsTrim line = "" then []
  else
    let r := (parseCSVCharsS false false [] [] line.data).map String.mk
    r ++ List.replicate (14 - r.length) ""

/-! ### Trim lemmas -/

theorem trimRight_cons_ne (c : Char) (r : List Char) (h : trimRight r ≠ []) :
    trimRight (c :: r) = c :: trimRight r := by
  cases hh : trimRight r with
  | nil => exact absurd hh h
  | cons y ys => simp [trimRight, hh]

theorem trimRight_idem : ∀ l : List Char, trimRight (trimRight l) = trimRight l := by
  intro l
  induction l with
  | nil => rfl
  | cons c rest ih =>
    cases h : trimRight rest with
    | nil =>
      have e : trimRight (c :: rest) = if isJsWs c then [] else [c] := by
        simp [trimRight, h]
      rw [e]
      by_cases hc : isJsWs c
      · simp [hc, trimRight]
      · simp [hc, trimRight]
    | cons x xs =>
      have e : trimRight (c :: rest) = c :: x :: xs := by simp [trimRight, h]
      rw [e]
      have e2 : trimRight (x :: xs) = x :: xs := by rw [← h, ih]
      rw [trimRight_cons_ne c (x :: xs) (by rw [e2]; simp), e2]

theorem trimRight_head? : ∀ l : List Char,
    trimRight l = [] ∨ (trimRight l).head? = l.head? := by
  intro l
  cases l with
  | nil => exact Or.inl rfl
  | cons c rest =>
    cases h : trimRight rest with
    | nil =>
      by_cases hc : isJsWs c
      · exact Or.inl (by simp [trimRight, h, hc])
      · exact Or.inr (by simp [trimRight, h, hc])
    | cons x xs => exact Or.inr (by simp [trimRight, h])

theorem head?_dropWhile_ws : ∀ (l : List Char) (c : Char),
    (l.dropWhile isJsWs).head? = some c → isJsWs c = false := by
  intro l
  induction l with
  | nil => intro c h; simp at h
  | cons a rest ih =>
    intro c h
    by_cases ha : isJsWs a
    · rw [List.dropWhile_cons_of_pos ha] at h
      exact ih c h
    · rw [List.dropWhile_cons_of_neg ha] at h
      simp only [List.head?_cons, Option.some.injEq] at h
      subst h
      exact Bool.eq_false_iff.mpr ha

theorem dropWhile_ws_eq_self (l : List Char)
    (hc : ∀ c, l.head? = some c → isJsWs c = false) :
    l.dropWhile isJsWs = l := by
  cases l with
  | nil => rfl
  | cons a rest =>
    have ha := hc a rfl
    rw [List.dropWhile_cons_of_neg (by simp [ha])]

theorem trimL_idem (l : List Char) : trimL (trimL l) = trimL l := by
  show trimRight ((trimRight (l.dropWhile isJsWs)).dropWhile isJsWs)
      = trimRight (l.dropWhile isJsWs)
  rcases trimRight_head? (l.dropWhile isJsWs) with h | h
  · rw [h]
    rfl
  · have hd : (trimRight (l.dropWhile isJsWs)).dropWhile isJsWs
        = trimRight (l.dropWhile isJsWs) :=
      dropWhile_ws_eq_self _ (fun c hc => head?_dropWhile_ws l c (h ▸ hc))
    rw [hd, trimRight_idem]

/-! ### C7: the CSV decoder trims every field -/

/-- Every field the `parseCSVLine` loop emits is a fixed point of trimming. -/
theorem parseCSVCharsS_trimmed :
    ∀ (l : List Char) (inQ pending : Bool) (cur : List Char)
      (acc : List (List Char)),
    (∀ m ∈ acc, trimL m = m) →
    ∀ m ∈ parseCSVCharsS inQ pending cur acc l, trimL m = m := by
  intro l
  induction l with
  | nil =>
    intro inQ pending cur acc h m hm
    simp only [parseCSVCharsS, List.mem_append, List.mem_singleton] at hm
    rcases hm with hm | hm
    · exact h m hm
    · rw [hm]; exact trimL_idem cur
  | cons c rest ih =>
    intro inQ pending cur acc h m hm
    have hacc : ∀ m' ∈ acc ++ [trimL cur], trimL m' = m' := by
      intro m' hm'
      simp only [List.mem_append, List.mem_singleton] at hm'
      rcases hm' with hm' | hm'
      · exact h m' hm'
      · rw [hm']; exact trimL_idem cur
    simp only [parseCSVCharsS] at hm
    split at hm
    · split at hm
      · exact ih true false (cur ++ ['"']) acc h m hm
      · split at hm
        · exact ih false false [] (acc ++ [trimL cur]) hacc m hm
        · exact ih false false (cur ++ [c]) acc h m hm
    · split at hm
      · split at hm
        · exact ih true true cur acc h m hm
        · exact ih true false cur acc h m hm
      · split at hm
        · exact ih false false [] (acc ++ [trimL cur]) hacc m hm
        · exact ih inQ false (cur ++ [c]) acc h m hm

/-- **C7, counterexample.** A whitespace-only field value is *not* preserved
as-is by the CSV decoder: in the row `"a, ,b"` the second field decodes to
`""`, not to `" "`. -/
theorem parseCSVLine_whitespace_not_preserved :
    (parseCSVLine "a, ,b").get? 1 = some "" ∧
    ¬ (parseCSVLine "a, ,b").get? 1 = some " " := by
  decide

/-- **C7, amended.** Every field in the CSV decoder's output for a data row
is trimmed of surrounding whitespace (`jsTrim f = f`); consequently a
whitespace-only value is replaced by the empty string, as the row `"a, ,b"`
shows. -/
theorem parseCSVLine_fields_trimmed (line f : String)
    (h : f ∈ parseCSVLine line) :
    jsTrim f = f ∧ (parseCSVLine "a, ,b").get? 1 = some "" := by
  refine ⟨?_, by decide⟩
  unfold parseCSVLine at h
  by_cases hl : jsTrim line = ""
  · rw [if_pos hl] at h
    simp at h
  · rw [if_neg hl] at h
    simp only [List.mem_append] at h
    rcases h with h | h
    · rcases List.mem_map.mp h with ⟨m, hm, rfl⟩
      have := parseCSVCharsS_trimmed line.data false false [] [] (by simp) m hm
      show String.mk (trimL m) = String.mk m
      rw [this]
    · rw [List.eq_of_mem_replicate h]
      rfl

theorem parseCSVLine_fields_trimmed_witness :
    ("a" ∈ parseCSVLine "a, ,b") ∧
    (jsTrim "a" = "a" ∧ (parseCSVLine "a, ,b").get? 1 = some "") :=
  ⟨by decide, parseCSVLine_fields_trimmed "a, ,b" "a" (by decide)⟩

/-! ### C5: first-missing-required-field diagnostics -/

/-- The required fields of a CSV row, paired with their values, in the fixed
check order of `transformCSVRow`. -/
def requiredPairs (row : CSVRow) : List (String × String) :=
  [("fullName", row.fullName), ("phone", row.phone), ("city", row.city),
   ("propertyType", row.propertyType), ("purpose", row.purpose),
   ("timeline", row.timeline), ("source", row.source)]

/-- **C5.** Whenever at least one required field of a candidate row is blank,
`transformCSVRow` reports the *first* blank field in the fixed order
fullName → phone → city → propertyType → purpose → timeline → source —
never a later-missing one. -/
theorem validator_first_missing_required (row : CSVRow) (fp : String × String)
    (h : (requiredPairs row).find? (fun p => jsTrim p.2 == "") = some fp) :
    transformCSVRow row = .error (fp.1 ++ " is required") := by
  simp only [requiredPairs, List.find?] at h
  by_cases h1 : jsTrim row.fullName = ""
  · simp only [h1, beq_self_eq_true, Option.some.injEq] at h
    rw [← h]
    show transformCSVRow row = Except.error "fullName is required"
    simp only [transformCSVRow]
    rw [if_pos h1]
  · rw [show (jsTrim row.fullName == "") = false by simpa using h1] at h
    by_cases h2 : jsTrim row.phone = ""
    · simp only [h2, beq_self_eq_true, Option.some.injEq] at h
      rw [← h]
      show transformCSVRow row = Except.error "phone is required"
      simp only [transformCSVRow]
      rw [if_neg h1, if_pos h2]
    · rw [show (jsTrim row.phone == "") = false by simpa using h2] at h
      by_cases h3 : jsTrim row.city = ""
      · simp only [h3, beq_self_eq_true, Option.some.injEq] at h
        rw [← h]
        show transformCSVRow row = Except.error "city is required"
        simp only [transformCSVRow]
        rw [if_neg h1, if_neg h2, if_pos h3]
      · rw [show (jsTrim row.city == "") = false by simpa using h3] at h
        by_cases h4 : jsTrim row.propertyType = ""
        · simp only [h4, beq_self_eq_true, Option.some.injEq] at h
          rw [← h]
          show transformCSVRow row = Except.error "propertyType is required"
          simp only [transformCSVRow]
          rw [if_neg h1, if_neg h2, if_neg h3, if_pos h4]
        · rw [show (jsTrim row.propertyType == "") = false by simpa using h4] at h
          by_cases h5 : jsTrim row.purpose = ""
          · simp only [h5, beq_self_eq_true, Option.some.injEq] at h
            rw [← h]
            show transformCSVRow row = Except.error "purpose is required"
            simp only [transformCSVRow]
            rw [if_neg h1, if_neg h2, if_neg h3, if_neg h4, if_pos h5]
          · rw [show (jsTrim row.purpose == "") = false by simpa using h5] at h
            by_cases h6 : jsTrim row.timeline = ""
            · simp only [h6, beq_self_eq_true, Option.some.injEq] at h
              rw [← h]
              show transformCSVRow row = Except.error "timeline is required"
              simp only [transformCSVRow]
              rw [if_neg h1, if_neg h2, if_neg h3, if_neg h4, if_neg h5, if_pos h6]
            · rw [show (jsTrim row.timeline == "") = false by simpa using h6] at h
              by_cases h7 : jsTrim row.source = ""
              · simp only [h7, beq_self_eq_true, Option.some.injEq] at h
                rw [← h]
                show transformCSVRow row = Except.error "source is required"
                simp only [transformCSVRow]
                rw [if_neg h1, if_neg h2, if_neg h3, if_neg h4, if_neg h5,
                    if_neg h6, if_pos h7]
              · rw [show (jsTrim row.source == "") = false by simpa using h7] at h
                simp at h

theorem validator_first_missing_required_witness :
    ((requiredPairs ⟨"Jo", "a@bc.in", "", "", "Plot", "ONE", "Buy", "1", "2",
        "EXPLORING", "Call", "n", "t", "New"⟩).find?
      (fun p => jsTrim p.2 == "") = some ("phone", "")) ∧
    transformCSVRow ⟨"Jo", "a@bc.in", "", "", "Plot", "ONE", "Buy", "1", "2",
        "EXPLORING", "Call", "n", "t", "New"⟩ =
      .error (("phone", "").1 ++ " is required") :=
  ⟨by decide,
   validator_first_missing_required
     ⟨"Jo", "a@bc.in", "", "", "Plot", "ONE", "Buy", "1", "2",
      "EXPLORING", "Call", "n", "t", "New"⟩ ("phone", "") (by decide)⟩

/-! ### C6: budget validation as the code actually performs it -/

/-- An otherwise-valid CSV row with negative budgets. -/
def rowNegBudget : CSVRow :=
  ⟨"Jo", "a@bc.in", "1234567890", "Other", "Plot", "ONE", "Buy", "-5", "-3",
   "EXPLORING", "Call", "n", "t", "New"⟩

/-- An otherwise-valid CSV row with both budgets blank. -/
def rowAbsentBudget : CSVRow :=
  ⟨"Jo", "a@bc.in", "1234567890", "Other", "Plot", "ONE", "Buy", "", "",
   "EXPLORING", "Call", "n", "t", "New"⟩

/-- **C6 (evaluation at the failing inputs).** Contrary to the spec, the
validator *accepts* negative budgets (`buyerSchema` carries no
non-negativity check) and *rejects* a row whose budgets are blank: the
transform writes `null`, which zod's `.optional()` does not accept. -/
theorem budget_validation_code_eval :
    transformCSVRow rowNegBudget =
      .ok ⟨"Jo", "a@bc.in", "1234567890", "Other", "Plot", "ONE", "Buy",
           -5, -3, "EXPLORING", "Call", "New", "n", ["t"]⟩ ∧
    transformCSVRow rowAbsentBudget =
      .error "budgetMin: Expected number, received null" := by
  decide

/-! ## Storage and history (`prisma` collaborator, modelled in memory) -/

/-- A stored `Buyer` row.  Database `NULL` is `none`. -/
structure Buyer where
  id : Nat
  fullName : String
  email : Option String
  phone : String
  city : String
  propertyType : String
  bhk : Option String
  purpose : String
  budgetMin : Option Int
  budgetMax : Option Int
  timeline : String
  source : String
  status : String
  notes : Option String
  tags : List String
  ownerId : String
deriving DecidableEq, Repr

/-- A JSON scalar/array value as it appears inside a history diff. -/
inductive FieldVal
  | str (s : String)
  | num (n : Int)
  | null
  | arr (xs : List String)
deriving DecidableEq, Repr

/-- One `{old, new}` pair of a history diff, keyed by field name. -/
structure FieldChange where
  field : String
  oldVal : FieldVal
  newVal : FieldVal
deriving DecidableEq, Repr

/-- The `diff` JSON payload of a `BuyerHistory` row, one constructor per
`action` tag the source writes. -/
inductive HistoryDiff
  | imported (timestamp : String)
  | statusUpdated (changes : List FieldChange) (timestamp : String)
  | updated (changes : List FieldChange) (timestamp : String)
deriving DecidableEq, Repr

/-- A `BuyerHistory` row. -/
structure HistoryEntry where
  buyerId : Nat
  changedBy : String
  diff : HistoryDiff
deriving DecidableEq, Repr

/-- The storage collaborator's state. -/
structure Storage where
  buyers : List Buyer
  histories : List HistoryEntry
deriving DecidableEq, Repr

/-- Every string occurring in a diff payload (action tag, timestamp, field
names and rendered old/new values): used to ask whether a diff references a
given submitted value. -/
def fieldValStrings : FieldVal → List String
  | .str s => [s]
  | .num n => [toString n]
  | .null => []
  | .arr xs => xs

def changeStrings (c : FieldChange) : List String :=
  c.field :: (fieldValStrings c.oldVal ++ fieldValStrings c.newVal)

def diffStrings : HistoryDiff → List String
  | .imported ts => ["IMPORTED", ts]
  | .statusUpdated chs ts =>
    "STATUS_UPDATED" :: ts :: chs.flatMap changeStrings
  | .updated chs ts => "UPDATED" :: ts :: chs.flatMap changeStrings

/-! ## The import pipeline (`importCSV`) -/

/-- The expected 14-column import header. -/
def expectedHeaders : List String :=
  ["fullName", "email", "phone", "city", "propertyType", "bhk", "purpose",
   "budgetMin", "budgetMax", "timeline", "source", "notes", "tags", "status"]

/-- `text.split('\n')`. -/
def splitLines (text : String) : List String :=
  (splitOnChar '\n' text.data).map String.mk

/-- `text.split('\n').filter(line => line.trim())`. -/
def filteredLines (text : String) : List String :=
  (splitLines text).filter (fun l => jsTrim l != "")

/-- The data rows: everything after the header line. -/
def dataLines (text : String) : List String :=
  (filteredLines text).tail

/-- Header parsing: `lines[0].split(',').map(h => h.trim().replace(/"/g, ''))`. -/
def headerNames (headerLine : String) : List String :=
  (splitOnChar ',' headerLine.data).map
    (fun h => String.mk ((trimL h).filter (fun c => c ≠ '"')))

/-- One entry of the response's `errors` array. -/
structure RowError where
  row : Nat
  message : String
deriving DecidableEq, Repr

/-- `ImportResult`. -/
structure ImportResult where
  success : Bool
  totalRows : Nat
  validRows : Nat
  errors : List RowError
  insertedCount : Nat
deriving DecidableEq, Repr

/-- The endpoint's outcome: a fatal whole-file error (400) or a report. -/
inductive ImportOutcome
  | fatal (message : String)
  | report (r : ImportResult)
deriving DecidableEq, Repr

/-- Rebuild the `CSVRow` object from positional values
(`(values[k] || '').toString()`). -/
def rowFromValues (vs : List String) : CSVRow :=
  ⟨vs.getD 0 "", vs.getD 1 "", vs.getD 2 "", vs.getD 3 "", vs.getD 4 "",
   vs.getD 5 "", vs.getD 6 "", vs.getD 7 "", vs.getD 8 "", vs.getD 9 "",
   vs.getD 10 "", vs.getD 11 "", vs.getD 12 "", vs.getD 13 ""⟩

/-- The accumulators of the row loop: collected `errors`, collected
`validData`, and `csvRows.length` (rows that reached the column-count
check with 14 columns). -/
structure ScanAcc where
  errors : List RowError
  valid : List ValidBuyer
  rowsParsed : Nat
deriving DecidableEq, Repr

/-- The body of the row loop for data line `line` at index `i` in the
filtered `lines` array (user-facing row number `i + 1`).  The blank-line
`continue` is kept although the caller has already filtered blank lines. -/
def scanStep (i : Nat) (line : String) (acc : ScanAcc) : ScanAcc :=
  if jsTrim line = "" then acc
  else
    let values := parseCSVLine line
    if values.length ≠ expectedHeaders.length then
      { acc with
        errors := acc.errors ++
          [⟨i + 1,
            "Expected " ++ toString expectedHeaders.length ++ " columns, got "
              ++ toString values.length ++ ". Values: " ++ joinComma values⟩] }
    else
      match transformCSVRow (rowFromValues values) with
      | .ok v =>
        { acc with valid := acc.valid ++ [v], rowsParsed := acc.rowsParsed + 1 }
      | .error e =>
        { acc with errors := acc.errors ++ [⟨i + 1, e⟩],
                   rowsParsed := acc.rowsParsed + 1 }

def scanFold (ps : List (Nat × String)) (acc : ScanAcc) : ScanAcc :=
  ps.foldl (fun a p => scanStep p.1 p.2 a) acc

/-- The whole row loop (`for (let i = 1; i < lines.length; i++)`). -/
def scanRows (dls : List String) : ScanAcc :=
  scanFold (List.enumFrom 1 dls) ⟨[], [], 0⟩

/-- Store a validated row: `tx.buyer.create` with the fixed owner. -/
def toStoredBuyer (newId : Nat) (v : ValidBuyer) : Buyer :=
  ⟨newId, v.fullName, some v.email, v.phone, v.city, v.propertyType,
   some v.bhk, v.purpose, some v.budgetMin, some v.budgetMax, v.timeline,
   v.source, v.status, some v.notes, v.tags, "user-id-123"⟩

/-- One iteration of the commit loop: create the buyer, then its
`BuyerHistory` row with diff `{action: "IMPORTED", timestamp}`. -/
def commitOne (now : String) (st : Storage) (v : ValidBuyer) : Storage :=
  { buyers := st.buyers ++ [toStoredBuyer st.buyers.length v]
    histories := st.histories ++
      [⟨st.buyers.length, "user-id-123", .imported now⟩] }

/-- `importCSV` from the split-and-filtered lines onward.  The request-level
file checks (file present, ≤ 5 MB, `.csv` name) precede the text processing
and are outside this model; `now` stands for `Date.now()`.  The in-model
commit cannot fail, so the transaction's catch branch is unreachable here. -/
def importLines (now : String) (st : Storage) : List String →
    ImportOutcome × Storage
  | [] => (.fatal "CSV file is empty", st)
  | headerLine :: dataRows =>
    if (headerLine :: dataRows).length > 201 then
      (.fatal "Maximum 200 rows allowed (excluding header)", st)
    else
      let missing := expectedHeaders.filter
        (fun h => !((headerNames headerLine).contains h))
      if missing ≠ [] then
        (.fatal ("Missing required headers: " ++ joinComma missing), st)
      else
        let scan := scanRows dataRows
        if scan.errors ≠ [] then
          (.report ⟨false, scan.rowsParsed, scan.valid.length, scan.errors, 0⟩, st)
        else
          (.report ⟨true, scan.rowsParsed, scan.valid.length, [],
                    scan.valid.length⟩,
           scan.valid.foldl (commitOne now) st)

/-- The import endpoint on raw text. -/
def importCSV (text now : String) (st : Storage) : ImportOutcome × Storage :=
  importLines now st (filteredLines text)

/-! ### Scan lemmas -/

theorem scanStep_errors_grow (i : Nat) (line : String) (acc : ScanAcc) :
    ∃ e0, (scanStep i line acc).errors = acc.errors ++ e0 := by
  simp only [scanStep]
  split
  · exact ⟨[], by simp⟩
  · split
    · exact ⟨_, rfl⟩
    · split
      · exact ⟨[], by simp⟩
      · exact ⟨_, rfl⟩

theorem scanFold_errors_grow :
    ∀ (ps : List (Nat × String)) (acc : ScanAcc),
    ∃ es, (scanFold ps acc).errors = acc.errors ++ es := by
  intro ps
  induction ps with
  | nil => intro acc; exact ⟨[], by simp [scanFold]⟩
  | cons p ps ih =>
    intro acc
    obtain ⟨e0, h0⟩ := scanStep_errors_grow p.1 p.2 acc
    obtain ⟨es, hes⟩ := ih (scanStep p.1 p.2 acc)
    exact ⟨e0 ++ es, by
      show (scanFold ps (scanStep p.1 p.2 acc)).errors = acc.errors ++ (e0 ++ es)
      rw [hes, h0, List.append_assoc]⟩

theorem scanFold_all_ok :
    ∀ (ps : List (Nat × String)) (acc : ScanAcc),
    (∀ p ∈ ps, ¬ jsTrim p.2 = "") →
    (scanFold ps acc).errors = acc.errors →
    (scanFold ps acc).rowsParsed = acc.rowsParsed + ps.length ∧
    (scanFold ps acc).valid.length = acc.valid.length + ps.length := by
  intro ps
  induction ps with
  | nil => intro acc _ _; simp [scanFold]
  | cons p ps ih =>
    intro acc hnb herr
    have hp : ¬ jsTrim p.2 = "" := hnb p (by simp)
    have hps : ∀ q ∈ ps, ¬ jsTrim q.2 = "" := fun q hq => hnb q (by simp [hq])
    have hfold : scanFold (p :: ps) acc = scanFold ps (scanStep p.1 p.2 acc) := rfl
    rw [hfold] at herr ⊢
    by_cases hlen : (parseCSVLine p.2).length ≠ expectedHeaders.length
    · exfalso
      have hstep : (scanStep p.1 p.2 acc).errors
          = acc.errors ++
            [⟨p.1 + 1,
              "Expected " ++ toString expectedHeaders.length ++ " columns, got "
                ++ toString (parseCSVLine p.2).length ++ ". Values: "
                ++ joinComma (parseCSVLine p.2)⟩] := by
        unfold scanStep
        rw [if_neg hp, if_pos hlen]
      obtain ⟨es, hes⟩ := scanFold_errors_grow ps (scanStep p.1 p.2 acc)
      rw [hes, hstep] at herr
      have := congrArg List.length herr
      simp [List.length_append] at this
    · cases htr : transformCSVRow (rowFromValues (parseCSVLine p.2)) with
      | ok v =>
        have hstep : scanStep p.1 p.2 acc
            = { acc with valid := acc.valid ++ [v],
                         rowsParsed := acc.rowsParsed + 1 } := by
          unfold scanStep
          rw [if_neg hp, if_neg hlen, htr]
        rw [hstep] at herr ⊢
        have hmain := ih _ hps herr
        refine ⟨?_, ?_⟩
        · rw [hmain.1]; simp; omega
        · rw [hmain.2]; simp [List.length_append]; omega
      | error e =>
        exfalso
        have hstep : (scanStep p.1 p.2 acc).errors
            = acc.errors ++ [⟨p.1 + 1, e⟩] := by
          unfold scanStep
          rw [if_neg hp, if_neg hlen, htr]
        obtain ⟨es, hes⟩ := scanFold_errors_grow ps (scanStep p.1 p.2 acc)
        rw [hes, hstep] at herr
        have := congrArg List.length herr
        simp [List.length_append] at this

theorem dataLines_nonblank (text : String) :
    ∀ l ∈ dataLines text, ¬ jsTrim l = "" := by
  intro l hl
  have h1 : l ∈ filteredLines text := List.mem_of_mem_tail hl
  have h2 := List.of_mem_filter h1
  simpa using h2

theorem mem_enumFrom_snd :
    ∀ (l : List String) (n : Nat) (p : Nat × String),
    p ∈ List.enumFrom n l → p.2 ∈ l := by
  intro l
  induction l with
  | nil => intro n p hp; simp [List.enumFrom] at hp
  | cons x xs ih =>
    intro n p hp
    rw [List.enumFrom] at hp
    rcases List.mem_cons.mp hp with rfl | hp
    · simp
    · exact List.mem_cons_of_mem _ (ih (n + 1) p hp)

theorem scanRows_all_ok (dls : List String)
    (hnb : ∀ l ∈ dls, ¬ jsTrim l = "")
    (herr : (scanRows dls).errors = []) :
    (scanRows dls).rowsParsed = dls.length ∧
    (scanRows dls).valid.length = dls.length := by
  have hps : ∀ p ∈ List.enumFrom 1 dls, ¬ jsTrim p.2 = "" :=
    fun p hp => hnb p.2 (mem_enumFrom_snd dls 1 p hp)
  have := scanFold_all_ok (List.enumFrom 1 dls) ⟨[], [], 0⟩ hps herr
  simpa [scanRows, List.enumFrom_length] using this

/-! ### Commit lemmas -/

theorem commit_fold_spec (now : String) :
    ∀ (vs : List ValidBuyer) (st : Storage),
    ∃ newB newH,
      (vs.foldl (commitOne now) st).buyers = st.buyers ++ newB ∧
      (vs.foldl (commitOne now) st).histories = st.histories ++ newH ∧
      newB.length = vs.length ∧
      newH.map (fun e => (e.changedBy, e.diff))
        = List.replicate vs.length ("user-id-123", HistoryDiff.imported now) ∧
      newH.map (fun e => e.buyerId) = newB.map (fun b => b.id) := by
  intro vs
  induction vs with
  | nil => intro st; exact ⟨[], [], by simp, by simp, rfl, rfl, rfl⟩
  | cons v vs ih =>
    intro st
    obtain ⟨nB, nH, h1, h2, h3, h4, h5⟩ := ih (commitOne now st v)
    refine ⟨toStoredBuyer st.buyers.length v :: nB,
            ⟨st.buyers.length, "user-id-123", .imported now⟩ :: nH,
            ?_, ?_, ?_, ?_, ?_⟩
    · show (vs.foldl (commitOne now) (commitOne now st v)).buyers = _
      rw [h1]
      simp [commitOne]
    · show (vs.foldl (commitOne now) (commitOne now st v)).histories = _
      rw [h2]
      simp [commitOne]
    · simp [h3]
    · simp only [List.map_cons, h4, List.replicate_succ, List.length_cons]
    · simp only [List.map_cons, h5, toStoredBuyer]

/-! ### C1: the all-or-nothing gate -/

/-- **C1.** If any data row failed (validation or column count), the
endpoint leaves storage untouched, and whenever it answers with a report
that report has `success = false`, `insertedCount = 0`, the complete scan
error list, and the scan's `validRows`/`totalRows` counts. -/
theorem import_gate_blocks_commit (text now : String) (st : Storage)
    (h : (scanRows (dataLines text)).errors ≠ []) :
    (importCSV text now st).2 = st ∧
    ∀ r, (importCSV text now st).1 = ImportOutcome.report r →
      r.success = false ∧ r.insertedCount = 0 ∧
      r.errors = (scanRows (dataLines text)).errors ∧
      r.validRows = (scanRows (dataLines text)).valid.length ∧
      r.totalRows = (scanRows (dataLines text)).rowsParsed := by
  unfold importCSV
  cases hL : filteredLines text with
  | nil =>
    exact ⟨rfl, fun r hr => absurd hr (by simp [importLines])⟩
  | cons headerLine dataRows =>
    have hdl : dataLines text = dataRows := by
      unfold dataLines
      rw [hL]
      rfl
    rw [hdl] at h
    simp only [importLines]
    by_cases h201 : (headerLine :: dataRows).length > 201
    · rw [if_pos h201]
      exact ⟨rfl, fun r hr => absurd hr (by simp)⟩
    · rw [if_neg h201]
      by_cases hmiss : expectedHeaders.filter
          (fun hh => !((headerNames headerLine).contains hh)) ≠ []
      · rw [if_pos hmiss]
        exact ⟨rfl, fun r hr => absurd hr (by simp)⟩
      · rw [if_neg hmiss, if_pos h]
        refine ⟨rfl, fun r hr => ?_⟩
        have : ImportOutcome.report
            ⟨false, (scanRows dataRows).rowsParsed,
             (scanRows dataRows).valid.length, (scanRows dataRows).errors, 0⟩
            = ImportOutcome.report r := hr
        injection this with hres
        rw [← hres, hdl]
        exact ⟨rfl, rfl, rfl, rfl, rfl⟩

/-! ### Concrete import fixtures -/

def importHeaderLine : String :=
  "fullName,email,phone,city,propertyType,bhk,purpose,budgetMin,budgetMax,timeline,source,notes,tags,status"

def validRowLine : String :=
  "Jo,a@bc.in,1234567890,Other,Plot,ONE,Buy,1,2,EXPLORING,Call,n,t,New"

def invalidRowLine : String :=
  "Al,a@bc.in,,Other,Plot,ONE,Buy,1,2,EXPLORING,Call,n,t,New"

/-- The spec's gate example: rows 1 and 3 valid, row 2 with a blank phone. -/
def csvWithBadRow : String :=
  importHeaderLine ++ "\n" ++ validRowLine ++ "\n" ++ invalidRowLine
    ++ "\n" ++ validRowLine

def csvAllValid : String :=
  importHeaderLine ++ "\n" ++ validRowLine ++ "\n" ++ validRowLine

def csvOneRow : String :=
  importHeaderLine ++ "\n"
    ++ "John Doe,a@bc.in,1234567890,Other,Plot,ONE,Buy,1,2,EXPLORING,Call,n,t,New"

def emptyStorage : Storage := ⟨[], []⟩

theorem import_gate_blocks_commit_witness :
    ((scanRows (dataLines csvWithBadRow)).errors ≠ []) ∧
    (importCSV csvWithBadRow "T" emptyStorage).2 = emptyStorage ∧
    (importCSV csvWithBadRow "T" emptyStorage).1 =
      ImportOutcome.report ⟨false, 3, 2, [⟨3, "phone is required"⟩], 0⟩ :=
  ⟨by decide,
   (import_gate_blocks_commit csvWithBadRow "T" emptyStorage (by decide)).1,
   by decide⟩

/-! ### C2: the all-valid commit -/

/-- **C2, counterexample.** The history entry written for an imported row
does *not* reference the submitted values: its diff consists of the action
tag and a timestamp only.  For a one-row import with `fullName` `"John Doe"`
the created buyer carries that name, but the strings stored in the history
diff are exactly `["IMPORTED", "T"]`. -/
theorem import_history_lacks_submitted_values :
    ((importCSV csvOneRow "T" emptyStorage).2.histories.map
        (fun e => diffStrings e.diff)) = [["IMPORTED", "T"]] ∧
    ¬ "John Doe" ∈ (["IMPORTED", "T"] : List String) ∧
    (importCSV csvOneRow "T" emptyStorage).2.buyers.map (fun b => b.fullName)
      = ["John Doe"] := by
  decide

/-- **C2, amended.** For an import whose data rows all pass validation, the
commit inserts exactly N records and creates exactly N history entries, each
written by the fixed owner with diff `{action: "IMPORTED", timestamp}` (not
the submitted values) and linked to its created record, and the report is
`success = true`, `validRows = totalRows = insertedCount = N`, empty error
list. -/
theorem import_commit_all_valid (text now : String) (st : Storage)
    (herr : (scanRows (dataLines text)).errors = [])
    (r : ImportResult)
    (hr : (importCSV text now st).1 = ImportOutcome.report r) :
    r = ⟨true, (dataLines text).length, (dataLines text).length, [],
         (dataLines text).length⟩ ∧
    (importCSV text now st).2.buyers.length
      = st.buyers.length + (dataLines text).length ∧
    (importCSV text now st).2.histories.length
      = st.histories.length + (dataLines text).length ∧
    ((importCSV text now st).2.histories.drop st.histories.length).map
        (fun e => (e.changedBy, e.diff))
      = List.replicate (dataLines text).length
          ("user-id-123", HistoryDiff.imported now) ∧
    ((importCSV text now st).2.histories.drop st.histories.length).map
        (fun e => e.buyerId)
      = ((importCSV text now st).2.buyers.drop st.buyers.length).map
          (fun b => b.id) := by
  unfold importCSV at hr ⊢
  cases hL : filteredLines text with
  | nil =>
    rw [hL] at hr
    simp [importLines] at hr
  | cons headerLine dataRows =>
    have hdl : dataLines text = dataRows := by
      unfold dataLines
      rw [hL]
      rfl
    rw [hdl] at herr ⊢
    rw [hL] at hr
    simp only [importLines] at hr ⊢
    by_cases h201 : (headerLine :: dataRows).length > 201
    · rw [if_pos h201] at hr
      exact absurd hr (by simp)
    · rw [if_neg h201] at hr ⊢
      by_cases hmiss : expectedHeaders.filter
          (fun hh => !((headerNames headerLine).contains hh)) ≠ []
      · rw [if_pos hmiss] at hr
        exact absurd hr (by simp)
      · rw [if_neg hmiss] at hr ⊢
        rw [if_neg (by rw [herr]; exact fun hh => hh rfl)] at hr ⊢
        have hcounts := scanRows_all_ok dataRows
          (by rw [← hdl]; exact dataLines_nonblank text) herr
        obtain ⟨nB, nH, h1, h2, h3, h4, h5⟩ :=
          commit_fold_spec now (scanRows dataRows).valid st
        have hN : (scanRows dataRows).valid.length = dataRows.length :=
          hcounts.2
        have hnH : nH.length = dataRows.length := by
          have := congrArg List.length h4
          simpa [hN] using this
        injection hr with hres
        refine ⟨?_, ?_, ?_, ?_, ?_⟩
        · rw [← hres]
          have : (⟨true, (scanRows dataRows).rowsParsed,
              (scanRows dataRows).valid.length, [],
              (scanRows dataRows).valid.length⟩ : ImportResult)
              = ⟨true, dataRows.length, dataRows.length, [],
                 dataRows.length⟩ := by
            rw [hcounts.1, hcounts.2]
          exact this
        · rw [h1]
          simp [h3, hN]
        · rw [h2]
          simp [hnH]
        · rw [h2, List.drop_left, h4, hN]
        · rw [h2, h1, List.drop_left, List.drop_left, h5]

theorem import_commit_all_valid_witness :
    ((scanRows (dataLines csvAllValid)).errors = []) ∧
    ((importCSV csvAllValid "T" emptyStorage).2.buyers.length
       = emptyStorage.buyers.length + (dataLines csvAllValid).length) :=
  ⟨by decide,
   (import_commit_all_valid csvAllValid "T" emptyStorage (by decide)
      ⟨true, 2, 2, [], 2⟩ (by decide)).2.1⟩

/-! ## Update routes and the history differ -/

/-- `fieldsToTrack` of `PUT /api/buyers/[id]`. -/
def fieldsToTrack : List String :=
  ["fullName", "email", "phone", "city", "propertyType", "bhk", "purpose",
   "budgetMin", "budgetMax", "timeline", "source", "status", "notes", "tags"]

def optStrVal : Option String → FieldVal
  | none => .null
  | some s => .str s

def optIntVal : Option Int → FieldVal
  | none => .null
  | some n => .num n

/-- The JSON rendering of one tracked field of a stored buyer. -/
def fieldVal (b : Buyer) (f : String) : FieldVal :=
  if f = "fullName" then .str b.fullName
  else if f = "email" then optStrVal b.email
  else if f = "phone" then .str b.phone
  else if f = "city" then .str b.city
  else if f = "propertyType" then .str b.propertyType
  else if f = "bhk" then optStrVal b.bhk
  else if f = "purpose" then .str b.purpose
  else if f = "budgetMin" then optIntVal b.budgetMin
  else if f = "budgetMax" then optIntVal b.budgetMax
  else if f = "timeline" then .str b.timeline
  else if f = "source" then .str b.source
  else if f = "status" then .str b.status
  else if f = "notes" then optStrVal b.notes
  else if f = "tags" then .arr b.tags
  else .null

/-- The history differ of `updateBuyer`: for each tracked field compare the
`JSON.stringify` renderings (structural equality of `FieldVal` is exactly
stringify-equality on these values) and collect `{old, new}` pairs. -/
def computeChanges (before after : Buyer) : List FieldChange :=
  fieldsToTrack.filterMap (fun f =>
    if fieldVal before f ≠ fieldVal after f then
      some ⟨f, fieldVal before f, fieldVal after f⟩
    else none)

/-- The parsed `buyerSchema` body of a `PUT` request: `none` in an optional
field models a field the client omitted (`undefined`). -/
structure BuyerPatch where
  fullName : String
  email : Option String
  phone : String
  city : String
  propertyType : String
  bhk : Option String
  purpose : String
  budgetMin : Option Int
  budgetMax : Option Int
  timeline : String
  source : String
  status : Option String
  notes : Option String
  tags : Option (List String)
deriving DecidableEq, Repr

/-- The `prisma.buyer.update` data of `updateBuyer`: `parsed.x ?? null` for
nullable fields, `parsed.status ?? currentBuyer.status`, `parsed.tags ?? []`. -/
def applyPatch (b : Buyer) (p : BuyerPatch) : Buyer :=
  { b with
    fullName := p.fullName
    email := p.email
    phone := p.phone
    city := p.city
    propertyType := p.propertyType
    bhk := p.bhk
    purpose := p.purpose
    budgetMin := p.budgetMin
    budgetMax := p.budgetMax
    timeline := p.timeline
    source := p.source
    status := p.status.getD b.status
    notes := p.notes
    tags := p.tags.getD [] }

/-- `updateBuyer` (`PUT /api/buyers/[id]`): update the row, then create one
history entry iff the change set is non-empty. -/
def updateBuyer (b : Buyer) (p : BuyerPatch) (now : String) :
    Buyer × List HistoryEntry :=
  let updated := applyPatch b p
  let changes := computeChanges b updated
  (updated,
   if changes.length > 0 then
     [⟨b.id, "user-id-123", .updated changes now⟩]
   else [])

/-- `updateBuyerStatus` (`PATCH /api/buyers/[id]/status`): zod-validate the
status, update the row, and create one history entry iff the status
actually changed. -/
def updateBuyerStatus (b : Buyer) (newStatus : String) (now : String) :
    Except String (Buyer × List HistoryEntry) :=
  if statusValues.contains newStatus = false then .error "Invalid status value"
  else
    let updated := { b with status := newStatus }
    .ok (updated,
      if b.status ≠ updated.status then
        [⟨b.id, "user-id-123",
          .statusUpdated [⟨"status", .str b.status, .str updated.status⟩] now⟩]
      else [])

/-! ### C8: history suppression on no-op updates -/

/-- **C8.** An update whose patch reproduces the record's current values
creates no history entry; a status update with the unchanged status creates
zero history rows; a status update that changes the status creates exactly
one entry carrying the `{old, new}` pair for the `"status"` field. -/
theorem update_history_suppression :
    (∀ (b : Buyer) (p : BuyerPatch) (now : String),
      applyPatch b p = b → (updateBuyer b p now).2 = []) ∧
    (∀ (b : Buyer) (now : String), statusValues.contains b.status = true →
      updateBuyerStatus b b.status now = .ok (b, [])) ∧
    (∀ (b : Buyer) (s now : String), statusValues.contains s = true →
      s ≠ b.status →
      updateBuyerStatus b s now =
        .ok ({ b with status := s },
             [⟨b.id, "user-id-123",
               .statusUpdated [⟨"status", .str b.status, .str s⟩] now⟩])) := by
  refine ⟨?_, ?_, ?_⟩
  · intro b p now hid
    have hch : computeChanges b (applyPatch b p) = [] := by
      rw [hid]
      simp [computeChanges, fieldsToTrack]
    simp [updateBuyer, hch]
  · intro b now hs
    have hcond : ¬ statusValues.contains b.status = false := by
      rw [hs]
      simp
    simp only [updateBuyerStatus, if_neg hcond]
    simp
  · intro b s now hs hne
    have hcond : ¬ statusValues.contains s = false := by
      rw [hs]
      simp
    simp only [updateBuyerStatus, if_neg hcond]
    simp [Ne.symm hne]

def sampleBuyer : Buyer :=
  ⟨0, "Jo", some "a@bc.in", "1234567890", "Other", "Plot", some "ONE", "Buy",
   some 1, some 2, "ZERO_TO_3M", "Website", "New", some "n", ["t"],
   "user-id-123"⟩

/-- A patch that reproduces `sampleBuyer`'s current values. -/
def samplePatch : BuyerPatch :=
  ⟨"Jo", some "a@bc.in", "1234567890", "Other", "Plot", some "ONE", "Buy",
   some 1, some 2, "ZERO_TO_3M", "Website", some "New", some "n", some ["t"]⟩

theorem update_history_suppression_witness :
    (applyPatch sampleBuyer samplePatch = sampleBuyer) ∧
    ((updateBuyer sampleBuyer samplePatch "T").2 = []) ∧
    (statusValues.contains "New" = true) ∧
    (updateBuyerStatus sampleBuyer "New" "T" = .ok (sampleBuyer, [])) ∧
    (updateBuyerStatus sampleBuyer "Qualified" "T" =
      .ok ({ sampleBuyer with status := "Qualified" },
           [⟨0, "user-id-123",
             .statusUpdated [⟨"status", .str "New", .str "Qualified"⟩] "T"⟩])) :=
  ⟨by decide,
   update_history_suppression.1 sampleBuyer samplePatch "T" (by decide),
   by decide,
   update_history_suppression.2.1 sampleBuyer "T" (by decide),
   update_history_suppression.2.2 sampleBuyer "Qualified" "T" (by decide)
     (by decide)⟩

/-! ### Split/trim lemmas for the tag round-trip -/

theorem splitOnChar_ne_nil (c : Char) : ∀ l, splitOnChar c l ≠ [] := by
  intro l
  induction l with
  | nil => simp [splitOnChar]
  | cons x rest ih =>
    by_cases hx : x = c
    · simp [splitOnChar, hx]
    · cases hh : splitOnChar c rest with
      | nil => exact absurd hh ih
      | cons h t => simp [splitOnChar, hx, hh]

theorem splitOnChar_no_sep (c : Char) :
    ∀ l, ¬ c ∈ l → splitOnChar c l = [l] := by
  intro l
  induction l with
  | nil => intro _; rfl
  | cons x rest ih =>
    intro hmem
    have hx : ¬ x = c := fun hh => hmem (by simp [hh])
    have hrest : ¬ c ∈ rest := fun hh => hmem (by simp [hh])
    simp [splitOnChar, hx, ih hrest]

theorem splitOnChar_cons_ne (c x : Char) (l : List Char) (hx : ¬ x = c) :
    ∃ h t, splitOnChar c l = h :: t ∧
      splitOnChar c (x :: l) = (x :: h) :: t := by
  cases hh : splitOnChar c l with
  | nil => exact absurd hh (splitOnChar_ne_nil c l)
  | cons h t => exact ⟨h, t, rfl, by simp [splitOnChar, hx, hh]⟩

theorem splitOnChar_append_sep (c : Char) :
    ∀ xs ys, ¬ c ∈ xs →
    splitOnChar c (xs ++ c :: ys) = xs :: splitOnChar c ys := by
  intro xs
  induction xs with
  | nil => intro ys _; simp [splitOnChar]
  | cons x rest ih =>
    intro ys hmem
    have hx : ¬ x = c := fun hh => hmem (by simp [hh])
    have hrest : ¬ c ∈ rest := fun hh => hmem (by simp [hh])
    have := ih ys hrest
    simp [splitOnChar, hx, this]

theorem splitOnChar_mem_no_sep (c : Char) :
    ∀ l m, m ∈ splitOnChar c l → ¬ c ∈ m := by
  intro l
  induction l with
  | nil =>
    intro m hm
    simp [splitOnChar] at hm
    simp [hm]
  | cons x rest ih =>
    intro m hm
    by_cases hx : x = c
    · rw [show splitOnChar c (x :: rest) = [] :: splitOnChar c rest by
        simp [splitOnChar, hx]] at hm
      rcases List.mem_cons.mp hm with rfl | hm
      · simp
      · exact ih m hm
    · obtain ⟨h, t, hht, hcons⟩ := splitOnChar_cons_ne c x rest hx
      rw [hcons] at hm
      rcases List.mem_cons.mp hm with rfl | hm
      · intro hcm
        rcases List.mem_cons.mp hcm with hcx | hch
        · exact hx hcx.symm
        · exact ih h (by rw [hht]; simp) hch
      · exact ih m (by rw [hht]; exact List.mem_cons_of_mem _ hm)

theorem mem_trimRight : ∀ (l : List Char) (a : Char),
    a ∈ trimRight l → a ∈ l := by
  intro l
  induction l with
  | nil => intro a ha; simp [trimRight] at ha
  | cons c rest ih =>
    intro a ha
    cases hh : trimRight rest with
    | nil =>
      rw [show trimRight (c :: rest) = if isJsWs c then [] else [c] by
        simp [trimRight, hh]] at ha
      by_cases hc : isJsWs c
      · simp [hc] at ha
      · simp [hc] at ha
        simp [ha]
    | cons x xs =>
      rw [show trimRight (c :: rest) = c :: x :: xs by simp [trimRight, hh]] at ha
      rcases List.mem_cons.mp ha with rfl | ha
      · simp
      · exact List.mem_cons_of_mem _ (ih a (by rw [hh]; exact ha))

theorem mem_dropWhile_ws : ∀ (l : List Char) (a : Char),
    a ∈ l.dropWhile isJsWs → a ∈ l := by
  intro l
  induction l with
  | nil => intro a ha; simp at ha
  | cons c rest ih =>
    intro a ha
    by_cases hc : isJsWs c
    · rw [List.dropWhile_cons_of_pos hc] at ha
      exact List.mem_cons_of_mem _ (ih a ha)
    · rwa [List.dropWhile_cons_of_neg hc] at ha

theorem mem_trimL (l : List Char) (a : Char) (ha : a ∈ trimL l) : a ∈ l :=
  mem_dropWhile_ws l a (mem_trimRight _ a ha)

theorem trimL_cons_ws (c : Char) (l : List Char) (h : isJsWs c = true) :
    trimL (c :: l) = trimL l := by
  simp [trimL, List.dropWhile_cons_of_pos h]

theorem trimRight_ne_nil (c : Char) (l : List Char) (h : isJsWs c = false) :
    trimRight (c :: l) ≠ [] := by
  cases hh : trimRight l with
  | nil => simp [trimRight, hh, h]
  | cons x xs => simp [trimRight, hh]

theorem length_trimRight_le : ∀ l : List Char,
    (trimRight l).length ≤ l.length := by
  intro l
  induction l with
  | nil => simp [trimRight]
  | cons c rest ih =>
    cases hh : trimRight rest with
    | nil =>
      by_cases hc : isJsWs c
      · simp [trimRight, hh, hc]
      · simp [trimRight, hh, hc]
    | cons x xs =>
      rw [show trimRight (c :: rest) = c :: x :: xs by simp [trimRight, hh]]
      rw [hh] at ih
      simp at ih ⊢
      omega

theorem length_dropWhile_ws_le : ∀ l : List Char,
    (l.dropWhile isJsWs).length ≤ l.length := by
  intro l
  induction l with
  | nil => simp
  | cons c rest ih =>
    by_cases hc : isJsWs c
    · rw [List.dropWhile_cons_of_pos hc]
      simp
      omega
    · rw [List.dropWhile_cons_of_neg hc]

theorem head_not_ws_of_trimL_fixed (c : Char) (t : List Char)
    (h : trimL (c :: t) = c :: t) : isJsWs c = false := by
  by_cases hc : isJsWs c
  · exfalso
    rw [trimL_cons_ws c t hc] at h
    have h1 : (trimL t).length ≤ t.length :=
      le_trans (length_trimRight_le _) (length_dropWhile_ws_le _)
    have h2 := congrArg List.length h
    simp at h2
    omega
  · exact Bool.eq_false_iff.mpr hc

/-- `joinComma` at the character level. -/
def joinData : List (List Char) → List Char
  | [] => []
  | [x] => x
  | x :: xs => x ++ ',' :: ' ' :: joinData xs

theorem joinComma_data : ∀ L : List String,
    (joinComma L).data = joinData (L.map String.data) := by
  intro L
  induction L with
  | nil => rfl
  | cons x xs ih =>
    cases xs with
    | nil => rfl
    | cons y ys =>
      show (x ++ ", " ++ joinComma (y :: ys)).data
          = x.data ++ ',' :: ' ' :: joinData ((y :: ys).map String.data)
      rw [← ih]
      simp [String.data_append]

theorem split_trim_join :
    ∀ (ms : List (List Char)),
    (∀ m ∈ ms, trimL m = m ∧ m ≠ [] ∧ ¬ ',' ∈ m) →
    ((splitOnChar ',' (joinData ms)).map trimL).filter
      (fun m => decide (0 < m.length)) = ms := by
  intro ms
  induction ms with
  | nil =>
    intro _
    show ((splitOnChar ',' []).map trimL).filter _ = []
    simp [splitOnChar, trimL, trimRight]
  | cons m rest ih =>
    intro hP
    have hm := hP m (by simp)
    cases rest with
    | nil =>
      show ((splitOnChar ',' m).map trimL).filter _ = [m]
      rw [splitOnChar_no_sep ',' m hm.2.2]
      rw [List.map_cons, List.map_nil, hm.1]
      rw [List.filter_cons_of_pos
        (by simp [List.length_pos.mpr hm.2.1])]
      rfl
    | cons m2 rest2 =>
      have hrest : ∀ q ∈ (m2 :: rest2), trimL q = q ∧ q ≠ [] ∧ ¬ ',' ∈ q :=
        fun q hq => hP q (by simp [hq])
      have hJ := ih hrest
      show ((splitOnChar ','
          (m ++ ',' :: ' ' :: joinData (m2 :: rest2))).map trimL).filter _
        = m :: m2 :: rest2
      rw [splitOnChar_append_sep ',' m _ hm.2.2]
      obtain ⟨h, t, hht, hcons⟩ :=
        splitOnChar_cons_ne ',' ' ' (joinData (m2 :: rest2)) (by decide)
      rw [hcons, List.map_cons, List.map_cons, hm.1,
          trimL_cons_ws ' ' h (by decide)]
      rw [List.filter_cons_of_pos (by simp [List.length_pos.mpr hm.2.1])]
      have hback : (trimL h :: List.map trimL t)
          = (splitOnChar ',' (joinData (m2 :: rest2))).map trimL := by
        rw [hht, List.map_cons]
      rw [hback, hJ]

/-- Every parsed tag is a trimmed, non-empty, comma-free string. -/
theorem parseTags_elem_spec (s : String) :
    ∀ t ∈ parseTags s,
      trimL t.data = t.data ∧ t.data ≠ [] ∧ ¬ ',' ∈ t.data := by
  intro t ht
  unfold parseTags at ht
  split at ht
  · simp at ht
  · rcases List.mem_filter.mp ht with ⟨hmem, hlen⟩
    rcases List.mem_map.mp hmem with ⟨l, hl, rfl⟩
    refine ⟨trimL_idem l, ?_, ?_⟩
    · intro hnil
      have hnil' : trimL l = [] := hnil
      simp [String.length, hnil'] at hlen
    · intro hc
      exact splitOnChar_mem_no_sep ',' s.data l hl
        (mem_trimL l ',' hc)

/-- Helper: `joinData` of a non-empty list starts with its first element. -/
theorem joinData_cons (m : List Char) (ms : List (List Char)) :
    ∃ r, joinData (m :: ms) = m ++ r := by
  cases ms with
  | nil => exact ⟨[], by simp [joinData]⟩
  | cons u us => exact ⟨',' :: ' ' :: joinData (u :: us), rfl⟩

theorem stringMk_eq_empty {l : List Char} (h : String.mk l = "") : l = [] :=
  congrArg String.data h

/-! ### C9: tag parsing and its round-trip -/

/-- **C9.** Tag parsing trims whitespace and drops empty entries —
`"tag1, , tag3"` parses to `["tag1", "tag3"]` — and is a round-trip: joining
any parse result with `", "` and re-parsing returns the same list. -/
theorem tag_parsing_roundtrip :
    parseTags "tag1, , tag3" = ["tag1", "tag3"] ∧
    ∀ s : String, parseTags (joinComma (parseTags s)) = parseTags s := by
  refine ⟨by decide, ?_⟩
  intro s
  cases hL : parseTags s with
  | nil => decide
  | cons t rest =>
    have hspec := parseTags_elem_spec s
    rw [hL] at hspec
    have hms : ∀ m ∈ (t :: rest).map String.data,
        trimL m = m ∧ m ≠ [] ∧ ¬ ',' ∈ m := by
      intro m hm
      rcases List.mem_map.mp hm with ⟨q, hq, rfl⟩
      exact hspec q hq
    obtain ⟨c, td, hcd⟩ : ∃ c td, t.data = c :: td := by
      cases hcd : t.data with
      | nil => exact absurd hcd (hspec t (by simp)).2.1
      | cons c td => exact ⟨c, td, rfl⟩
    have hcws : isJsWs c = false := by
      apply head_not_ws_of_trimL_fixed c td
      have h1 := (hspec t (by simp)).1
      rw [hcd] at h1
      exact h1
    obtain ⟨r, hr⟩ : ∃ r, (joinComma (t :: rest)).data = c :: (td ++ r) := by
      rw [joinComma_data]
      obtain ⟨r, hjr⟩ := joinData_cons t.data (rest.map String.data)
      refine ⟨r, ?_⟩
      show joinData (t.data :: rest.map String.data) = c :: (td ++ r)
      rw [hjr, hcd]
      simp
    have hguard : ¬ jsTrim (joinComma (t :: rest)) = "" := by
      intro hg
      unfold jsTrim at hg
      have hdata := stringMk_eq_empty hg
      rw [hr] at hdata
      unfold trimL at hdata
      rw [List.dropWhile_cons_of_neg (by simp [hcws])] at hdata
      exact trimRight_ne_nil c (td ++ r) hcws hdata
    have hid : (t :: rest).map (fun q => String.mk q.data) = t :: rest := by
      have he : (fun q : String => String.mk q.data) = fun q => q :=
        funext (fun q => rfl)
      rw [he, List.map_id']
    simp only [parseTags]
    rw [if_neg hguard, joinComma_data]
    rw [show List.map (fun l => String.mk (trimL l))
          (splitOnChar ',' (joinData ((t :: rest).map String.data)))
        = List.map String.mk (List.map trimL
            (splitOnChar ',' (joinData ((t :: rest).map String.data))))
      from (List.map_map _ _ _).symm]
    rw [List.filter_map]
    show List.map String.mk
        ((List.map trimL (splitOnChar ','
          (joinData ((t :: rest).map String.data)))).filter
            (fun m => decide (0 < m.length)))
      = t :: rest
    rw [split_trim_join ((t :: rest).map String.data) hms]
    rw [List.map_map]
    show (t :: rest).map (fun q => String.mk q.data) = t :: rest
    exact hid
